import Mathlib

/-!
Shallow embedding of the monthly-playlist synchronizer (Go, `main.go`).

The program pulls the user's saved tracks and playlists from a remote music
service, buckets saved tracks by the month of their `added_at` timestamp,
resolves or creates one playlist per month label, and appends the tracks not
already present.  The definitions below translate the relevant parts of the
source: the pure data manipulations become Lean functions, the stateful main
loop becomes explicit state passing over a service-state record, and fallible
steps return `Option`/`Except`.  The remote service itself is modelled per the
design contract: a playlist's fetched track items are its current URI list
(the separate `GetPlaylistResponse` model below captures the raw response
shape with its first-page items array and `next` cursor).
-/

/-- A playlist as held by the remote service: id, name and the ordered list of
track URIs it contains.  Ids are modelled as naturals assigned by a counter. -/
structure Playlist where
  id : Nat
  name : String
  uris : List String
deriving DecidableEq, Repr

/-- The remote service's state: the user's playlists in order, and the counter
from which ids for newly created playlists are drawn. -/
structure ServiceState where
  playlists : List Playlist
  nextId : Nat
deriving DecidableEq, Repr

/-- One decoded element of the saved-tracks list: the `added_at` string and the
track's URI (`trackMap["added_at"]`, `trackMap["track"]["uri"]` in the source). -/
structure TrackRaw where
  addedAt : String
  uri : String
deriving DecidableEq, Repr

/-- One create-playlist call as issued by `CreatePlaylist` from the main loop. -/
structure CreateCall where
  name : String
  isPublic : Bool
  collaborative : Bool
  description : String
deriving DecidableEq, Repr

/-- One append call as issued by `AddItemsToPlaylist` from the main loop. -/
structure AppendCall where
  playlistId : Nat
  uris : List String
deriving DecidableEq, Repr

/-! ## RFC 3339 timestamps and Go's `Format("January '06")`

`main` runs `time.Parse(time.RFC3339, addedAt)` and then
`t.Format("January '06")`.  The parse below reads the textual fields of the
timestamp (which is exactly what formatting in the timestamp's own encoded
offset produces: no timezone normalization happens between parse and format). -/

/-- The fields `time.Parse(time.RFC3339, _)` yields, as far as the program
consumes them. -/
structure GoTime where
  year : Nat
  month : Nat
  day : Nat
  hour : Nat
  minute : Nat
  second : Nat
  offsetMinutes : Int
deriving DecidableEq, Repr

/-- Numeric value of a decimal digit character. -/
def digitVal (c : Char) : Option Nat :=
  if c.isDigit then some (c.toNat - 48) else none

/-- Read exactly two decimal digits. -/
def read2 : List Char → Option (Nat × List Char)
  | c1 :: c2 :: cs => do
    let d1 ← digitVal c1
    let d2 ← digitVal c2
    some (d1 * 10 + d2, cs)
  | _ => none

/-- Read exactly four decimal digits. -/
def read4 : List Char → Option (Nat × List Char)
  | c1 :: c2 :: c3 :: c4 :: cs => do
    let d1 ← digitVal c1
    let d2 ← digitVal c2
    let d3 ← digitVal c3
    let d4 ← digitVal c4
    some (d1 * 1000 + d2 * 100 + d3 * 10 + d4, cs)
  | _ => none

/-- Require a specific character next. -/
def expectCh (ch : Char) : List Char → Option (List Char)
  | c :: cs => if c = ch then some cs else none
  | [] => none

/-- Drop a maximal run of digits. -/
def dropDigits : List Char → List Char
  | c :: cs => if c.isDigit then dropDigits cs else c :: cs
  | [] => []

/-- Skip an optional fractional-seconds part `.d+` (a dot must be followed by
at least one digit). -/
def skipFrac : List Char → Option (List Char)
  | c :: cs =>
    if c = '.' then
      match cs with
      | d :: _ => if d.isDigit then some (dropDigits cs) else none
      | [] => none
    else some (c :: cs)
  | [] => some []

/-- Parse the zone suffix: `Z`, or `±hh:mm` ending the string. -/
def parseZone : List Char → Option Int
  | ['Z'] => some 0
  | c :: cs =>
    if c = '+' ∨ c = '-' then do
      let (h, cs) ← read2 cs
      let cs ← expectCh ':' cs
      let (m, cs) ← read2 cs
      if cs = [] ∧ h ≤ 23 ∧ m ≤ 59 then
        some (if c = '+' then (h * 60 + m : Int) else -(h * 60 + m : Int))
      else none
    else none
  | [] => none

/-- Go's `daysIn`: length of a month, with leap years. -/
def daysInMonth (year month : Nat) : Nat :=
  if month = 2 then
    if year % 4 = 0 ∧ (year % 100 ≠ 0 ∨ year % 400 = 0) then 29 else 28
  else if month = 4 ∨ month = 6 ∨ month = 9 ∨ month = 11 then 30
  else 31

/-- `time.Parse(time.RFC3339, s)`: `YYYY-MM-DDThh:mm:ss[.d+](Z|±hh:mm)` with
the same range checks Go applies; `none` models the parse error (fatal in
`main`). -/
def parseRFC3339 (s : String) : Option GoTime := do
  let cs := s.data
  let (y, cs) ← read4 cs
  let cs ← expectCh '-' cs
  let (mo, cs) ← read2 cs
  let cs ← expectCh '-' cs
  let (d, cs) ← read2 cs
  let cs ← expectCh 'T' cs
  let (h, cs) ← read2 cs
  let cs ← expectCh ':' cs
  let (mi, cs) ← read2 cs
  let cs ← expectCh ':' cs
  let (sec, cs) ← read2 cs
  let cs ← skipFrac cs
  let off ← parseZone cs
  if 1 ≤ mo ∧ mo ≤ 12 ∧ 1 ≤ d ∧ d ≤ daysInMonth y mo ∧ h ≤ 23 ∧ mi ≤ 59 ∧ sec ≤ 59 then
    some ⟨y, mo, d, h, mi, sec, off⟩
  else none

/-- English month names as Go's `time.Month.String` yields them. -/
def monthName : Nat → String
  | 1 => "January"
  | 2 => "February"
  | 3 => "March"
  | 4 => "April"
  | 5 => "May"
  | 6 => "June"
  | 7 => "July"
  | 8 => "August"
  | 9 => "September"
  | 10 => "October"
  | 11 => "November"
  | 12 => "December"
  | _ => ""

/-- Two-digit zero-padded rendering, as Go's `06` format verb. -/
def pad2 (n : Nat) : String :=
  if n < 10 then "0" ++ toString n else toString n

/-- `t.Format("January '06")`: month name, a space, an apostrophe, and the
year's last two digits. -/
def formatMonthLabel (t : GoTime) : String :=
  monthName t.month ++ " '" ++ pad2 (t.year % 100)

/-! ## The orchestration core (`main`, lines 468-598)

Go maps become association lists: `playlistMap` (label to resolved playlist
id) keeps insertion order; `tracksByMonth` (label to pending URI sequence)
keeps first-occurrence order, which stands in for Go's map iteration order in
the append phase — every property stated below is per-label and does not
depend on the order in which labels are visited. -/

/-- First value stored under a key (Go map read). -/
def lookupA {α : Type} : List (String × α) → String → Option α
  | [], _ => none
  | (k, v) :: rest, key => if k = key then some v else lookupA rest key

/-- `tracksByMonth[label] = append(tracksByMonth[label], uri)`. -/
def appendTrackTo : List (String × List String) → String → String → List (String × List String)
  | [], k, u => [(k, [u])]
  | (k0, us) :: rest, k, u =>
    if k0 = k then (k0, us ++ [u]) :: rest else (k0, us) :: appendTrackTo rest k u

/-- The playlist-name scan of `main` (lines 506-525): first playlist whose
name equals the label. -/
def findFirstByName (ps : List Playlist) (nm : String) : Option Playlist :=
  ps.find? (fun p => p.name == nm)

/-- `GetPlaylist` against the modelled service: the playlist with the given
id (first match; ids are unique in well-formed states). -/
def getPlaylistById (s : ServiceState) (i : Nat) : Option Playlist :=
  s.playlists.find? (fun p => p.id == i)

/-- Effect of `AddItemsToPlaylist` on the service: the URIs are appended to
the playlist with the given id. -/
def appendToPlaylist (s : ServiceState) (i : Nat) (us : List String) : ServiceState :=
  { s with playlists := s.playlists.map fun p =>
      if p.id == i then { p with uris := p.uris ++ us } else p }

/-- The dedup filter of `main` (lines 584-589): pending URIs not already in
the `existingTracks` set, in pending order. -/
def computeDelta (existing pending : List String) : List String :=
  pending.filter fun u => !(existing.contains u)

/-- In-memory state of the bucketing loop of `main`. -/
structure SyncState where
  playlistMap : List (String × Nat)
  tracksByMonth : List (String × List String)
  service : ServiceState
  createCalls : List CreateCall
deriving DecidableEq, Repr

/-- What one iteration of the bucketing loop extracts from a raw track
element: the month label and the track URI.  `none` is the fatal path: a
non-map element (the `nil` slot the reversal can leave) or an undecodable
`added_at`. -/
def decodeTrack : Option TrackRaw → Option (String × String)
  | none => none
  | some t =>
    match parseRFC3339 t.addedAt with
    | none => none
    | some gt => some (formatMonthLabel gt, t.uri)

/-- Playlist resolution for one label (`main`, lines 505-543): if the label
has no cached id, take the first name match among the playlists fetched at
run start, else create a playlist named after the label (public,
non-collaborative, empty description) and cache the fresh id. -/
def resolveLabel (fetched : List Playlist) (st : SyncState) (label : String) : SyncState :=
  match lookupA st.playlistMap label with
  | some _ => st
  | none =>
    match findFirstByName fetched label with
    | some p => { st with playlistMap := st.playlistMap ++ [(label, p.id)] }
    | none =>
      { st with
        playlistMap := st.playlistMap ++ [(label, st.service.nextId)]
        service := ⟨st.service.playlists ++ [⟨st.service.nextId, label, []⟩],
          st.service.nextId + 1⟩
        createCalls := st.createCalls ++ [⟨label, true, false, ""⟩] }

/-- One iteration of the bucketing loop: decode, append the URI to the
label's pending sequence, resolve the label's playlist.  `none` is the fatal
`log.Fatal` path aborting the run. -/
def processTrack (fetched : List Playlist) (st : SyncState) (tr : Option TrackRaw) :
    Option SyncState :=
  (decodeTrack tr).map fun lu =>
    resolveLabel fetched
      { st with tracksByMonth := appendTrackTo st.tracksByMonth lu.1 lu.2 } lu.1

/-- The whole bucketing loop; the boolean records whether it ran to
completion (`false` = aborted by `log.Fatal`, keeping the state reached). -/
def phaseA (fetched : List Playlist) : List (Option TrackRaw) → SyncState → SyncState × Bool
  | [], st => (st, true)
  | tr :: rest, st =>
    match processTrack fetched st tr with
    | none => (st, false)
    | some st1 => phaseA fetched rest st1

/-- One iteration of the append loop of `main` (lines 546-598): fetch the
target playlist, build the existing-URI set, filter the pending sequence,
and append the delta if non-empty.  `none` is the fatal path (playlist
unresolvable or fetch failed). -/
def processMonth (pm : List (String × Nat)) (s : ServiceState) (calls : List AppendCall)
    (entry : String × List String) : Option (ServiceState × List AppendCall) :=
  if entry.2.length > 0 then
    match lookupA pm entry.1 with
    | none => none
    | some i =>
      match getPlaylistById s i with
      | none => none
      | some p =>
        if (computeDelta p.uris entry.2).length > 0 then
          some (appendToPlaylist s i (computeDelta p.uris entry.2),
            calls ++ [⟨i, computeDelta p.uris entry.2⟩])
        else some (s, calls)
  else some (s, calls)

/-- The whole append loop; the boolean records completion as in `phaseA`. -/
def phaseB (pm : List (String × Nat)) :
    List (String × List String) → ServiceState → List AppendCall →
      (ServiceState × List AppendCall) × Bool
  | [], s, calls => ((s, calls), true)
  | e :: rest, s, calls =>
    match processMonth pm s calls e with
    | none => ((s, calls), false)
    | some (s1, calls1) => phaseB pm rest s1 calls1

/-- The reversal of `main` (lines 468-471), exactly as written: a fresh
array of the same length, slots `i` and `len-1-i` filled pairwise while
`i < j` — so for odd lengths the middle slot keeps the zero value `nil`
(modelled as `none`). -/
def reverseGo (xs : List (Option TrackRaw)) : List (Option TrackRaw) :=
  (List.range xs.length).map fun i =>
    if 2 * i = xs.length - 1 then none else xs.getD (xs.length - 1 - i) none

/-- Outcome of one run: the mutating calls issued, the service state after
the run, and whether the run completed without a fatal error. -/
structure RunResult where
  createCalls : List CreateCall
  appendCalls : List AppendCall
  finalState : ServiceState
  ok : Bool
deriving DecidableEq, Repr

/-- One full synchronization run of `main`: fetch playlists and saved tracks
(newest-first `raw`), reverse, bucket and resolve, then append the per-month
deltas. -/
def runSync (s : ServiceState) (raw : List (Option TrackRaw)) : RunResult :=
  let stA := phaseA s.playlists (reverseGo raw) ⟨[], [], s, []⟩
  if stA.2 then
    let r := phaseB stA.1.playlistMap stA.1.tracksByMonth stA.1.service []
    ⟨stA.1.createCalls, r.1.2, r.1.1, r.2⟩
  else
    ⟨stA.1.createCalls, [], stA.1.service, false⟩

/-! ## The exhaustive pager
(`EnumerateCurrentUsersPlaylists`, lines 74-135, and
`EnumerateUsersSavedTracks`, lines 138-191; both loops are textually
identical).  A fetched body decodes into a map; the code reads `items` (a
type-checked array) and `next` (checked for *presence*: an absent key is an
error, a present `nil` ends the loop, a present string is the next page's
URL).  Every page after the first decodes into the *same* map variable, and
`encoding/json` reuses a non-nil map, keeping entries the new body does not
mention — so a later body that omits a key leaves the previous page's value
in place (`mergePage` below).  The successive transport results the service
would serve are passed as a list, consumed one per request. -/

/-- How a fetch of one page can fail. -/
inductive FetchErr where
  /-- `client.Get` returned an error, or the body was not JSON. -/
  | transport
  /-- `items` absent or not an array. -/
  | itemsType
  /-- the `next` key is absent from the response. -/
  | nextMissing
deriving DecidableEq, Repr

/-- A decoded response body — equally, the state of the reused decode map:
`items` (present and well-typed, or absent) and `next` (absent, or present
with `null` / a URL). -/
structure RawPage (α : Type) where
  items : Option (List α)
  next : Option (Option String)
deriving DecidableEq, Repr

/-- Decoding a new body into the reused map: keys the new body carries are
overwritten, keys it omits keep the previous page's value. -/
def mergePage {α : Type} (old new : RawPage α) : RawPage α :=
  ⟨new.items.or old.items, new.next.or old.next⟩

/-- The accumulation loop shared by both enumerate functions: current state
of the decode map, remaining transport results, accumulator.  Note the
consequence of the map reuse: `items` or `next` can be absent only while the
map holds the first page, so the two decode errors can fire only there; on a
later page an omitted key silently re-uses the previous page's value. -/
def fetchLoop {α : Type} : RawPage α → List (Except FetchErr (RawPage α)) → List α →
    Except FetchErr (List α)
  | r, rest, acc =>
    match r.items with
    | none => .error .itemsType
    | some its =>
      match r.next with
      | none => .error .nextMissing
      | some none => .ok (acc ++ its)
      | some (some _) =>
        match rest with
        | [] => .error .transport
        | .error e :: _ => .error e
        | .ok r1 :: rest1 => fetchLoop (mergePage r r1) rest1 (acc ++ its)

/-- `EnumerateUsersSavedTracks` / `EnumerateCurrentUsersPlaylists`: fetch the
first page, then follow `next` until it is present with value `null`. -/
def enumeratePaged {α : Type} (rs : List (Except FetchErr (RawPage α))) :
    Except FetchErr (List α) :=
  match rs with
  | [] => .error .transport
  | .error e :: _ => .error e
  | .ok r :: rest => fetchLoop r rest []

/-- The `next` field a well-behaved endpoint serves: a URL while pages
remain, `null` (present) on the last page. -/
def nextMark {α : Type} : List (List α) → Option (Option String)
  | [] => some none
  | _ :: _ => some (some "url")

/-- An N-page chain as served by a well-behaved endpoint: every page carries
its items and a `next` URL, the last carries `next = null`. -/
def mkChain {α : Type} : List (List α) → List (Except FetchErr (RawPage α))
  | [] => []
  | p :: ps => .ok ⟨some p, nextMark ps⟩ :: mkChain ps

/-- A chain of pages that all point at a further page (no terminator). -/
def mkChainCont {α : Type} (pages : List (List α)) : List (Except FetchErr (RawPage α)) :=
  pages.map fun p => .ok ⟨some p, some (some "url")⟩

/-! ## HTTP-level behavior of the mutating calls
(`AddItemsToPlaylist`, lines 194-229; `CreatePlaylist`, lines 232-275;
`DeletePlaylist`, lines 297-324).  Each is modelled as a function of the
transport outcome of its one request: `Except.error` = `client.Do` failed,
otherwise an `HttpResp` carrying the status code and the decoded body. -/

/-- A response to a mutating call: status code and the body as a decoded
create-playlist object (`none` when the body is not JSON). -/
structure HttpResp where
  status : Nat
  body : Option Playlist
deriving DecidableEq, Repr

/-- `AddItemsToPlaylist` (lines 194-229): issues exactly one POST whose body
holds the given URI list — there is no emptiness guard in the function. -/
def addItemsRequests (playlistId : String) (uris : List String) : List (String × List String) :=
  [(playlistId, uris)]

/-- What `AddItemsToPlaylist` returns for a given transport outcome: the
response's status code is never inspected. -/
def addItemsResult (resp : Except String HttpResp) : Except String Unit :=
  match resp with
  | .error e => .error e
  | .ok _ => .ok ()

/-- What `CreatePlaylist` returns: the decoded body; the status code is
never inspected. -/
def createPlaylistResult (resp : Except String HttpResp) : Except String Playlist :=
  match resp with
  | .error e => .error e
  | .ok r =>
    match r.body with
    | none => .error "decode"
    | some pl => .ok pl

/-- What `DeletePlaylist` returns: an error whenever the status code is not
exactly 200 (`http.StatusOK`). -/
def deletePlaylistResult (resp : Except String HttpResp) : Except String Unit :=
  match resp with
  | .error e => .error e
  | .ok r => if r.status ≠ 200 then .error "failed to delete playlist" else .ok ()

/-! ## Credential write-back (`main`, lines 408-442, `WriteTokenToPath`,
lines 278-294).  `main` reads the persisted token, asks the token source once
for a possibly refreshed token, writes it back when the access token changed,
and then builds the HTTP client around that token; refreshes the client's
own token source performs later in the run are not observable to `main` and
are followed by no write.  The oauth2 transport (not part of this
repository) is modelled by the two refresh outcomes: `startRefresh` is the
token the pre-run `tokenSource.Token()` call yields when it refreshes, and
`midRunRefresh` the token a silent refresh during the run leaves in memory. -/

/-- An oauth2 token, reduced to the field the write-back compares. -/
structure Token where
  accessToken : String
deriving DecidableEq, Repr

/-- The token `tokenSource.Token()` returns before the run: the persisted
token, or the refreshed one. -/
def newTokenOf (persisted : Token) (startRefresh : Option Token) : Token :=
  match startRefresh with
  | some t => t
  | none => persisted

/-- Content of the credential file at run end: `main` writes exactly once,
after the pre-run check, and only when the access token changed. -/
def persistedAtEnd (fileToken : Token) (startRefresh : Option Token)
    (_midRunRefresh : Option Token) : Token :=
  if (newTokenOf fileToken startRefresh).accessToken ≠ fileToken.accessToken then
    newTokenOf fileToken startRefresh
  else fileToken

/-- The in-memory token at run end: the client's token source starts from
the pre-run token and silently replaces it when it refreshes mid-run. -/
def inMemoryAtEnd (fileToken : Token) (startRefresh : Option Token)
    (midRunRefresh : Option Token) : Token :=
  match midRunRefresh with
  | some t => t
  | none => newTokenOf fileToken startRefresh

/-! ## The raw get-playlist response (`GetPlaylist`, lines 36-54, consumed in
`main`, lines 550-589).  The real response embeds under `tracks` the *first
page* of the playlist's items together with a `next` cursor for the rest;
the dedup phase reads only the embedded `items` array and never follows the
cursor. -/

/-- The part of a get-playlist response body the dedup phase can see: the
embedded items page (as URIs) and the embedded cursor. -/
structure GetPlaylistResponse where
  tracksItems : List String
  tracksNext : Option String
deriving DecidableEq, Repr

/-- The existing-URI set `main` builds (lines 555-582): exactly the URIs of
the embedded items array. -/
def existingFromResponse (r : GetPlaylistResponse) : List String :=
  r.tracksItems

/-- The delta `main` computes from the raw response (lines 584-589). -/
def deltaFromResponse (r : GetPlaylistResponse) (pending : List String) : List String :=
  computeDelta (existingFromResponse r) pending

/-! ## Basic facts about the dedup filter -/

lemma mem_computeDelta {existing pending : List String} {u : String} :
    u ∈ computeDelta existing pending ↔ u ∈ pending ∧ u ∉ existing := by
  simp [computeDelta, List.mem_filter]

lemma computeDelta_eq_nil {existing pending : List String}
    (h : ∀ u ∈ pending, u ∈ existing) : computeDelta existing pending = [] := by
  rw [computeDelta, List.filter_eq_nil_iff]
  intro a ha
  simp [h a ha]

lemma mem_append_computeDelta {existing pending : List String} {u : String}
    (h : u ∈ pending) : u ∈ existing ++ computeDelta existing pending := by
  rcases Decidable.em (u ∈ existing) with he | he
  · exact List.mem_append_left _ he
  · exact List.mem_append_right _ (mem_computeDelta.mpr ⟨h, he⟩)

lemma not_mem_computeDelta_of_mem {existing pending : List String} {u : String}
    (h : u ∈ existing) : u ∉ computeDelta existing pending := by
  intro hc
  exact (mem_computeDelta.mp hc).2 h

/-- Claim C2: for every target playlist contents and pending URI sequence the
computed delta is the pending sequence filtered to the URIs not already
present, in pending order (it is a sublist of the pending sequence), and on a
playlist containing A and B with pending [A, C, B, D] the delta is [C, D]. -/
theorem c2_dedup_delta :
    (∀ existing pending : List String, ∀ u,
      u ∈ computeDelta existing pending ↔ u ∈ pending ∧ u ∉ existing)
    ∧ (∀ existing pending : List String, (computeDelta existing pending).Sublist pending)
    ∧ computeDelta ["A", "B"] ["A", "C", "B", "D"] = ["C", "D"] := by
  exact ⟨fun _ _ _ => mem_computeDelta, fun _ _ => List.filter_sublist _, by decide⟩

/-- Claim C5, counterexample: `AddItemsToPlaylist` returns success on a 500
response and `CreatePlaylist` returns the decoded body on a 403 response, so
a non-2xx response on a mutating call does not cause a failure there. -/
theorem c5_counterexample :
    addItemsResult (Except.ok ⟨500, none⟩) = Except.ok ()
    ∧ createPlaylistResult (Except.ok ⟨403, some ⟨7, "x", []⟩⟩) = Except.ok ⟨7, "x", []⟩
    ∧ ¬ (500 / 100 = 2) ∧ ¬ (403 / 100 = 2) := by
  exact ⟨rfl, rfl, by decide, by decide⟩

/-- Claim C5, amended: only `DeletePlaylist` turns a bad status into a
failure (any status other than exactly 200); `AddItemsToPlaylist` succeeds on
every transported response regardless of status, and `CreatePlaylist`'s
result ignores the status entirely; transport errors do propagate in all
three. -/
theorem c5_status_handling :
    (∀ st : Nat, ∀ b, (deletePlaylistResult (Except.ok ⟨st, b⟩) = Except.ok ()) ↔ st = 200)
    ∧ (∀ st : Nat, ∀ b, addItemsResult (Except.ok ⟨st, b⟩) = Except.ok ())
    ∧ (∀ st st' : Nat, ∀ b,
        createPlaylistResult (Except.ok ⟨st, b⟩) = createPlaylistResult (Except.ok ⟨st', b⟩))
    ∧ (∀ e, addItemsResult (Except.error e) = Except.error e)
    ∧ (∀ e, createPlaylistResult (Except.error e) = Except.error e)
    ∧ (∀ e, deletePlaylistResult (Except.error e) = Except.error e) := by
  refine ⟨fun st b => ?_, fun _ _ => rfl, fun _ _ _ => rfl, fun _ => rfl, fun _ => rfl,
    fun _ => rfl⟩
  by_cases h : st = 200 <;> simp [deletePlaylistResult, h]

/-- Claim C9, counterexample: with a valid persisted token (access "a") and a
silent refresh during the run yielding access "b", the persisted file still
holds "a" at run end while the in-memory token holds "b". -/
theorem c9_counterexample :
    (persistedAtEnd ⟨"a"⟩ none (some ⟨"b"⟩)).accessToken = "a"
    ∧ (inMemoryAtEnd ⟨"a"⟩ none (some ⟨"b"⟩)).accessToken = "b"
    ∧ ¬ (persistedAtEnd ⟨"a"⟩ none (some ⟨"b"⟩)).accessToken
        = (inMemoryAtEnd ⟨"a"⟩ none (some ⟨"b"⟩)).accessToken := by
  exact ⟨rfl, rfl, by decide⟩

/-- Claim C9, amended: the write-back covers exactly the one refresh check
before the client is built — at run end the persisted access token equals the
token returned by that pre-run check, and it equals the in-memory token only
when no silent refresh happened during the run. -/
theorem c9_writeback_at_startup_only :
    (∀ t0 sr mr, (persistedAtEnd t0 sr mr).accessToken = (newTokenOf t0 sr).accessToken)
    ∧ (∀ t0 sr, inMemoryAtEnd t0 sr none = newTokenOf t0 sr)
    ∧ (∀ t0 sr t, inMemoryAtEnd t0 sr (some t) = t) := by
  refine ⟨fun t0 sr mr => ?_, fun _ _ => rfl, fun _ _ _ => rfl⟩
  unfold persistedAtEnd
  by_cases h : (newTokenOf t0 sr).accessToken = t0.accessToken <;> simp [h]

/-- Claim C8, counterexample: `AddItemsToPlaylist` called with an empty URI
list still issues its one POST request (there is no emptiness guard in the
function itself). -/
theorem c8_counterexample :
    addItemsRequests "p" [] = [("p", [])] ∧ addItemsRequests "p" [] ≠ [] := by
  exact ⟨rfl, by decide⟩

/-- Claim C10: the dedup phase excludes exactly the URIs of the embedded
items array of the one get-playlist response; the embedded `next` cursor
never influences the computed delta, so a pending URI present in the
playlist only on a later page (not among the embedded items) is not
excluded. -/
theorem c10_dedup_first_page_only :
    (∀ r : GetPlaylistResponse, ∀ pending,
      deltaFromResponse r pending = pending.filter fun u => !(r.tracksItems.contains u))
    ∧ (∀ r : GetPlaylistResponse, ∀ nxt pending,
      deltaFromResponse ⟨r.tracksItems, nxt⟩ pending = deltaFromResponse r pending)
    ∧ (∀ r : GetPlaylistResponse, ∀ laterPages pending : List String, ∀ u,
      u ∈ laterPages → u ∉ r.tracksItems → u ∈ pending →
        u ∈ deltaFromResponse r pending) := by
  refine ⟨fun _ _ => rfl, fun _ _ _ => rfl, fun r later pending u _ hni hp => ?_⟩
  exact mem_computeDelta.mpr ⟨hp, hni⟩

/-- Claim C10, witness: on a playlist whose full contents are
["A", "B", "C"] but whose embedded first page holds only ["A", "B"], the
pending URI "C" is not excluded from the delta. -/
theorem c10_dedup_first_page_only_witness :
    "C" ∈ deltaFromResponse ⟨["A", "B"], some "cursor"⟩ ["C"] :=
  c10_dedup_first_page_only.2.2 ⟨["A", "B"], some "cursor"⟩ ["C"] ["C"] "C"
    (by decide) (by decide) (by decide)

/-- Claim C6: the reversal of `main` at the failing input, a saved-tracks
list of odd length.  A one-element list reverses to `[nil]` (the zero-value
slot the swap loop never fills), the run aborts with no append issued, and
the middle element of a three-element list is likewise lost; on even lengths
the loop does compute the exact reversal, as the two-element case shows. -/
theorem c6_reversal_loses_middle_element :
    reverseGo [some ⟨"2024-01-15T10:00:00Z", "spotify:track:jan"⟩] = [none]
    ∧ (runSync ⟨[], 0⟩ [some ⟨"2024-01-15T10:00:00Z", "spotify:track:jan"⟩]).ok = false
    ∧ (runSync ⟨[], 0⟩ [some ⟨"2024-01-15T10:00:00Z", "spotify:track:jan"⟩]).appendCalls = []
    ∧ reverseGo [some ⟨"2024-01-01T00:00:00Z", "a"⟩, some ⟨"2024-01-02T00:00:00Z", "b"⟩,
        some ⟨"2024-01-03T00:00:00Z", "c"⟩]
      = [some ⟨"2024-01-03T00:00:00Z", "c"⟩, none, some ⟨"2024-01-01T00:00:00Z", "a"⟩]
    ∧ reverseGo [some ⟨"2024-01-01T00:00:00Z", "a"⟩, some ⟨"2024-01-02T00:00:00Z", "b"⟩]
      = [some ⟨"2024-01-02T00:00:00Z", "b"⟩, some ⟨"2024-01-01T00:00:00Z", "a"⟩] := by
  exact ⟨by decide, by decide, by decide, by decide, by decide⟩

/-! ## Characterizing one step of the append loop -/

lemma processMonth_spec {pm : List (String × Nat)} {s : ServiceState}
    {calls : List AppendCall} {e : String × List String}
    {r : ServiceState × List AppendCall}
    (h : processMonth pm s calls e = some r) :
    r = (s, calls)
    ∨ ∃ i p, lookupA pm e.1 = some i ∧ getPlaylistById s i = some p
        ∧ computeDelta p.uris e.2 ≠ []
        ∧ r = (appendToPlaylist s i (computeDelta p.uris e.2),
               calls ++ [⟨i, computeDelta p.uris e.2⟩]) := by
  unfold processMonth at h
  split at h
  · split at h
    · exact absurd h (by simp)
    · rename_i i hl
      split at h
      · exact absurd h (by simp)
      · rename_i p hg
        split at h
        · rename_i hd
          right
          refine ⟨i, p, hl, hg, ?_, ?_⟩
          · intro hnil
            rw [hnil] at hd
            simp at hd
          · exact (Option.some_injective _ h).symm
        · left
          exact (Option.some_injective _ h).symm
  · left
    exact (Option.some_injective _ h).symm

/-! ## Growth of the service state during a run

Appending URIs to a playlist keeps every playlist's id and name and only
extends URI lists; creations append new playlists at the end.  The lemmas
below transport first-match lookups (by name in the resolution scan, by id in
the append phase) along both kinds of change. -/

/-- One playlist grew from another: same id, same name, no URI lost. -/
def PlGrow (p q : Playlist) : Prop :=
  q.id = p.id ∧ q.name = p.name ∧ ∀ u ∈ p.uris, u ∈ q.uris

lemma PlGrow_refl (p : Playlist) : PlGrow p p := ⟨rfl, rfl, fun _ h => h⟩

lemma PlGrow_trans {p q r : Playlist} (h1 : PlGrow p q) (h2 : PlGrow q r) : PlGrow p r :=
  ⟨h2.1.trans h1.1, h2.2.1.trans h1.2.1, fun u hu => h2.2.2 u (h1.2.2 u hu)⟩

/-- A service state grew into another, as far as first-match lookups can
see: every lookup by a predicate stable under `PlGrow` still succeeds and
lands on a grown playlist.  Both effects of a run — URI appends and playlist
creations — grow the state in this sense. -/
def svcGrow (s s' : ServiceState) : Prop :=
  ∀ f : Playlist → Bool, (∀ p q, PlGrow p q → f q = f p) →
    ∀ p, s.playlists.find? f = some p →
      ∃ q, s'.playlists.find? f = some q ∧ PlGrow p q

lemma svcGrow_refl (s : ServiceState) : svcGrow s s :=
  fun _ _ p hp => ⟨p, hp, PlGrow_refl p⟩

lemma svcGrow_trans {s1 s2 s3 : ServiceState} (h1 : svcGrow s1 s2) (h2 : svcGrow s2 s3) :
    svcGrow s1 s3 := by
  intro f hf p hp
  obtain ⟨q, hq, hpq⟩ := h1 f hf p hp
  obtain ⟨r, hr, hqr⟩ := h2 f hf q hq
  exact ⟨r, hr, PlGrow_trans hpq hqr⟩

lemma find?_map_grow {g : Playlist → Playlist} (hg : ∀ a, PlGrow a (g a))
    {f : Playlist → Bool} (hf : ∀ p q, PlGrow p q → f q = f p) :
    ∀ (l : List Playlist) (p : Playlist), l.find? f = some p →
      (l.map g).find? f = some (g p)
  | a :: l, p, hp => by
    rw [List.find?_cons] at hp
    rw [List.map_cons, List.find?_cons]
    rcases hfa : f a with _ | _
    · rw [hfa] at hp
      simp only [hf a (g a) (hg a), hfa]
      exact find?_map_grow hg hf l p hp
    · rw [hfa] at hp
      simp only [hf a (g a) (hg a), hfa]
      simp only at hp
      rw [← Option.some_injective _ hp]

lemma appendToPlaylist_grow (s : ServiceState) (i : Nat) (us : List String) :
    svcGrow s (appendToPlaylist s i us) := by
  intro f hf p hp
  have hg : ∀ a : Playlist,
      PlGrow a (if a.id == i then { a with uris := a.uris ++ us } else a) := by
    intro a
    split
    · exact ⟨rfl, rfl, fun u hu => List.mem_append_left _ hu⟩
    · exact PlGrow_refl a
  exact ⟨_, find?_map_grow hg hf s.playlists p hp, hg p⟩

lemma svcGrow_of_append {s s' : ServiceState} (ext : List Playlist)
    (h : s'.playlists = s.playlists ++ ext) : svcGrow s s' := by
  intro f hf p hp
  refine ⟨p, ?_, PlGrow_refl p⟩
  simp only [h, List.find?_append, hp, Option.or_some]

/-- Name lookups are stable under playlist growth. -/
lemma name_pred_stable (nm : String) :
    ∀ p q : Playlist, PlGrow p q → (q.name == nm) = (p.name == nm) := by
  intro p q h
  rw [h.2.1]

/-- Id lookups are stable under playlist growth. -/
lemma id_pred_stable (i : Nat) :
    ∀ p q : Playlist, PlGrow p q → (q.id == i) = (p.id == i) := by
  intro p q h
  rw [h.1]

lemma svcGrow_findFirstByName {s s' : ServiceState} (h : svcGrow s s') {nm : String}
    {p : Playlist} (hp : findFirstByName s.playlists nm = some p) :
    ∃ q, findFirstByName s'.playlists nm = some q ∧ PlGrow p q :=
  h _ (name_pred_stable nm) p hp

lemma svcGrow_getPlaylistById {s s' : ServiceState} (h : svcGrow s s') {i : Nat}
    {p : Playlist} (hp : getPlaylistById s i = some p) :
    ∃ q, getPlaylistById s' i = some q ∧ PlGrow p q :=
  h _ (id_pred_stable i) p hp

/-- The target playlist (first match by id) holds the URI. -/
def memFirstById (s : ServiceState) (i : Nat) (u : String) : Prop :=
  ∃ q, getPlaylistById s i = some q ∧ u ∈ q.uris

lemma memFirstById_grow {s s' : ServiceState} (h : svcGrow s s') {i : Nat} {u : String}
    (hm : memFirstById s i u) : memFirstById s' i u := by
  obtain ⟨q, hq, hu⟩ := hm
  obtain ⟨q', hq', hgrow⟩ := svcGrow_getPlaylistById h hq
  exact ⟨q', hq', hgrow.2.2 u hu⟩

/-- Any property of the service state and the accumulated calls that every
successful `processMonth` step preserves holds at the end of the append
loop (also when the loop aborts: the state reached is a step's result). -/
lemma phaseB_inv (pm : List (String × Nat)) (P : ServiceState → List AppendCall → Prop)
    (hstep : ∀ s calls e r, processMonth pm s calls e = some r → P s calls → P r.1 r.2) :
    ∀ (tb : List (String × List String)) (s : ServiceState) (calls : List AppendCall),
      P s calls → P (phaseB pm tb s calls).1.1 (phaseB pm tb s calls).1.2
  | [], s, calls, hP => hP
  | e :: rest, s, calls, hP => by
    rw [phaseB]
    cases hpm : processMonth pm s calls e with
    | none => exact hP
    | some r =>
      obtain ⟨s1, calls1⟩ := r
      exact phaseB_inv pm P hstep rest s1 calls1 (hstep s calls e _ hpm hP)

lemma phaseB_grow (pm : List (String × Nat)) (tb : List (String × List String))
    (s : ServiceState) (calls : List AppendCall) :
    svcGrow s (phaseB pm tb s calls).1.1 := by
  have := phaseB_inv pm (fun s' _ => svcGrow s s') ?_ tb s calls (svcGrow_refl s)
  · exact this
  · intro s' calls' e r hpm hP
    rcases processMonth_spec hpm with heq | ⟨i, p, _, _, _, heq⟩
    · rw [heq]
      exact hP
    · rw [heq]
      exact svcGrow_trans hP (appendToPlaylist_grow s' i _)

/-- After a successful append, the first playlist with the targeted id holds
the whole pending sequence of that step. -/
lemma appendToPlaylist_mem {s : ServiceState} {i : Nat} {p : Playlist}
    (hg : getPlaylistById s i = some p) (pending : List String) {u : String}
    (hu : u ∈ pending) :
    memFirstById (appendToPlaylist s i (computeDelta p.uris pending)) i u := by
  have hgrow : ∀ a : Playlist,
      PlGrow a (if a.id == i then { a with uris := a.uris ++ computeDelta p.uris pending }
        else a) := by
    intro a
    split
    · exact ⟨rfl, rfl, fun v hv => List.mem_append_left _ hv⟩
    · exact PlGrow_refl a
  have hfind := find?_map_grow hgrow (id_pred_stable i) s.playlists p hg
  have hg' : s.playlists.find? (fun q => q.id == i) = some p := hg
  have hpid := List.find?_some hg'
  simp only at hpid
  refine ⟨_, hfind, ?_⟩
  simp only [hpid, if_pos]
  exact mem_append_computeDelta hu

/-- New URIs are recorded in the playlist by the time their append call is
in the accumulator: every call in the loop's output is contained in the
final service state. -/
lemma phaseB_calls_contained (pm : List (String × Nat)) (tb : List (String × List String))
    (s : ServiceState) :
    ∀ c ∈ (phaseB pm tb s []).1.2, ∀ u ∈ c.uris,
      memFirstById (phaseB pm tb s []).1.1 c.playlistId u := by
  have := phaseB_inv pm
    (fun s' calls => ∀ c ∈ calls, ∀ u ∈ c.uris, memFirstById s' c.playlistId u) ?_ tb s []
    (by intro c hc; exact absurd hc (List.not_mem_nil c))
  · exact this
  · intro s' calls' e r hpm hP
    rcases processMonth_spec hpm with heq | ⟨i, p, hl, hg, hne, heq⟩
    · rw [heq]
      exact hP
    · rw [heq]
      intro c hc u hu
      rcases List.mem_append.mp hc with hold | hnew
      · exact memFirstById_grow (appendToPlaylist_grow s' i _) (hP c hold u hu)
      · rw [List.mem_singleton.mp hnew] at hu ⊢
        exact appendToPlaylist_mem hg e.2 (List.mem_of_mem_filter hu)

/-- A URI already in the target playlist at the start of the append loop is
never part of an append call to that playlist. -/
lemma phaseB_excludes (pm : List (String × Nat)) (tb : List (String × List String))
    (s : ServiceState) (i : Nat) (u : String) (hm : memFirstById s i u) :
    ∀ c ∈ (phaseB pm tb s []).1.2, c.playlistId = i → u ∉ c.uris := by
  have := phaseB_inv pm
    (fun s' calls => memFirstById s' i u ∧ ∀ c ∈ calls, c.playlistId = i → u ∉ c.uris)
    ?_ tb s [] ⟨hm, by intro c hc; exact absurd hc (List.not_mem_nil c)⟩
  · exact this.2
  · intro s' calls' e r hpm hP
    rcases processMonth_spec hpm with heq | ⟨j, p, hl, hg, hne, heq⟩
    · rw [heq]
      exact hP
    · rw [heq]
      refine ⟨memFirstById_grow (appendToPlaylist_grow s' j _) hP.1, ?_⟩
      intro c hc hci
      rcases List.mem_append.mp hc with hold | hnew
      · exact hP.2 c hold hci
      · rw [List.mem_singleton.mp hnew]
        rw [List.mem_singleton.mp hnew] at hci
        simp only at hci ⊢
        subst hci
        obtain ⟨q, hq, hqu⟩ := hP.1
        rw [hq] at hg
        rw [Option.some_injective _ hg] at hqu
        exact not_mem_computeDelta_of_mem hqu

lemma processMonth_isSome {pm : List (String × Nat)} {s : ServiceState}
    (calls : List AppendCall) {e : String × List String} {i : Nat} {q : Playlist}
    (hl : lookupA pm e.1 = some i) (hg : getPlaylistById s i = some q) :
    ∃ r, processMonth pm s calls e = some r := by
  unfold processMonth
  simp only [hl, hg]
  split
  · split
    · exact ⟨_, rfl⟩
    · exact ⟨_, rfl⟩
  · exact ⟨_, rfl⟩

lemma processMonth_noop {pm : List (String × Nat)} {s : ServiceState}
    {calls : List AppendCall} {e : String × List String} {i : Nat} {q : Playlist}
    (hl : lookupA pm e.1 = some i) (hg : getPlaylistById s i = some q)
    (hsub : ∀ u ∈ e.2, u ∈ q.uris) :
    processMonth pm s calls e = some (s, calls) := by
  have hd : computeDelta q.uris e.2 = [] := computeDelta_eq_nil hsub
  unfold processMonth
  simp only [hl, hg, hd]
  split
  · rfl
  · rfl

/-- When every pending URI of every month is already in that month's target
playlist, the append loop completes, changes nothing and issues no call. -/
lemma phaseB_noop (pm : List (String × Nat)) :
    ∀ (tb : List (String × List String)) (s : ServiceState) (calls : List AppendCall),
      (∀ e ∈ tb, ∃ i, lookupA pm e.1 = some i ∧
        ∃ q, getPlaylistById s i = some q ∧ ∀ u ∈ e.2, u ∈ q.uris) →
      phaseB pm tb s calls = ((s, calls), true)
  | [], s, calls, _ => rfl
  | e :: rest, s, calls, h => by
    obtain ⟨i, hl, q, hg, hsub⟩ := h e (List.mem_cons_self e rest)
    rw [phaseB, processMonth_noop hl hg hsub]
    exact phaseB_noop pm rest s calls fun e' he' => h e' (List.mem_cons_of_mem e he')

/-- When every month of the append loop resolves to an existing playlist,
the loop completes, and afterwards every pending URI of every month is in
the first playlist carrying that month's resolved id. -/
lemma phaseB_pending (pm : List (String × Nat)) :
    ∀ (tb : List (String × List String)) (s : ServiceState) (calls : List AppendCall),
      (∀ e ∈ tb, ∃ i, lookupA pm e.1 = some i ∧ ∃ q, getPlaylistById s i = some q) →
      (phaseB pm tb s calls).2 = true
      ∧ ∀ e ∈ tb, ∀ i, lookupA pm e.1 = some i → ∀ u ∈ e.2,
          memFirstById (phaseB pm tb s calls).1.1 i u
  | [], s, calls, _ => by
    refine ⟨rfl, ?_⟩
    intro e he
    exact absurd he (List.not_mem_nil e)
  | e :: rest, s, calls, h => by
    obtain ⟨i, hl, q, hg⟩ := h e (List.mem_cons_self e rest)
    obtain ⟨r, hpm⟩ := processMonth_isSome calls hl hg
    have hgrowstep : svcGrow s r.1 := by
      rcases processMonth_spec hpm with heq | ⟨j, p, _, _, _, heq⟩
      · rw [heq]
        exact svcGrow_refl s
      · rw [heq]
        exact appendToPlaylist_grow s j _
    have hrest : ∀ e' ∈ rest, ∃ i', lookupA pm e'.1 = some i' ∧
        ∃ q', getPlaylistById r.1 i' = some q' := by
      intro e' he'
      obtain ⟨i', hl', q', hg'⟩ := h e' (List.mem_cons_of_mem e he')
      obtain ⟨q'', hq'', _⟩ := svcGrow_getPlaylistById hgrowstep hg'
      exact ⟨i', hl', q'', hq''⟩
    have ih := phaseB_pending pm rest r.1 r.2 hrest
    have hrw : phaseB pm (e :: rest) s calls = phaseB pm rest r.1 r.2 := by
      rw [phaseB, hpm]
    have hheadmem : ∀ u ∈ e.2, memFirstById r.1 i u := by
      intro u hu
      unfold processMonth at hpm
      simp only [hl, hg] at hpm
      by_cases hlen : e.2.length > 0
      · rw [if_pos hlen] at hpm
        by_cases hd : (computeDelta q.uris e.2).length > 0
        · rw [if_pos hd] at hpm
          rw [← Option.some_injective _ hpm]
          exact appendToPlaylist_mem hg e.2 hu
        · rw [if_neg hd] at hpm
          rw [← Option.some_injective _ hpm]
          have hdnil : computeDelta q.uris e.2 = [] := by
            cases hc : computeDelta q.uris e.2 with
            | nil => rfl
            | cons a l =>
              rw [hc] at hd
              simp at hd
          have hmm := List.filter_eq_nil_iff.mp hdnil u hu
          simp at hmm
          exact ⟨q, hg, hmm⟩
      · refine absurd hu ?_
        cases hc : e.2 with
        | nil =>
          exact List.not_mem_nil u
        | cons a l =>
          rw [hc] at hlen
          simp at hlen
    refine ⟨by rw [hrw]; exact ih.1, ?_⟩
    intro e' he' i' hl' u hu
    rcases List.mem_cons.mp he' with heq' | he''
    · subst heq'
      have hii : i' = i := by
        rw [hl] at hl'
        exact (Option.some_injective _ hl').symm
      subst hii
      rw [hrw]
      exact memFirstById_grow (phaseB_grow pm rest r.1 r.2) (hheadmem u hu)
    · rw [hrw]
      exact ih.2 e' he'' i' hl' u hu

/-! ## Facts about the bucketing loop -/

lemma lookupA_mem {α : Type} :
    ∀ {pm : List (String × α)} {L : String} {i : α}, lookupA pm L = some i → (L, i) ∈ pm
  | [], L, i, h => by
    exact absurd h (by simp [lookupA])
  | (k, v) :: rest, L, i, h => by
    rw [lookupA] at h
    split at h
    · rename_i hk
      rw [← hk, Option.some_injective _ h]
      exact List.mem_cons_self _ _
    · exact List.mem_cons_of_mem _ (lookupA_mem h)

lemma lookupA_append_some {α : Type} :
    ∀ {pm : List (String × α)} {L : String} {i : α} (e : String × α),
      lookupA pm L = some i → lookupA (pm ++ [e]) L = some i
  | [], L, i, e, h => by
    exact absurd h (by simp [lookupA])
  | (k, v) :: rest, L, i, e, h => by
    rw [lookupA] at h
    rw [List.cons_append, lookupA]
    split at h
    · rename_i hk
      rw [if_pos hk]
      exact h
    · rename_i hk
      rw [if_neg hk]
      exact lookupA_append_some e h

lemma lookupA_append_none {α : Type} :
    ∀ {pm : List (String × α)} {L L' : String} {i : α},
      lookupA pm L' = none → L' ≠ L → lookupA (pm ++ [(L, i)]) L' = none
  | [], L, L', i, h, hne => by
    rw [List.nil_append, lookupA, if_neg fun hh => hne hh.symm]
    rfl
  | (k, v) :: rest, L, L', i, h, hne => by
    rw [lookupA] at h
    rw [List.cons_append, lookupA]
    split at h
    · exact absurd h (by simp)
    · rename_i hk
      rw [if_neg hk]
      exact lookupA_append_none h hne

lemma lookupA_append_self {α : Type} {pm : List (String × α)} {L : String} {i : α}
    (h : lookupA pm L = none) : lookupA (pm ++ [(L, i)]) L = some i := by
  induction pm with
  | nil => simp [lookupA]
  | cons e rest ih =>
    obtain ⟨k, v⟩ := e
    rw [lookupA] at h
    rw [List.cons_append, lookupA]
    split at h
    · exact absurd h (by simp)
    · rename_i hk
      rw [if_neg hk]
      exact ih h

lemma lookupA_none_of_append {α : Type} :
    ∀ {pm pm2 : List (String × α)} {L : String},
      lookupA (pm ++ pm2) L = none → lookupA pm L = none
  | [], _, _, _ => rfl
  | (k, v) :: rest, pm2, L, h => by
    rw [List.cons_append, lookupA] at h
    rw [lookupA]
    split at h
    · exact absurd h (by simp)
    · rename_i hk
      rw [if_neg hk]
      exact lookupA_none_of_append h

/-- Keys of `appendTrackTo`: the appended key, or an old key. -/
lemma appendTrackTo_keys :
    ∀ {tb : List (String × List String)} {L u} {e : String × List String},
      e ∈ appendTrackTo tb L u → e.1 = L ∨ e ∈ tb ∨ ∃ us, (e.1, us) ∈ tb
  | [], L, u, e, h => by
    rw [appendTrackTo] at h
    rcases List.mem_singleton.mp h with h
    rw [h]
    exact Or.inl rfl
  | (k, us) :: rest, L, u, e, h => by
    rw [appendTrackTo] at h
    split at h
    · rcases List.mem_cons.mp h with he | he
      · rename_i hk
        rw [he]
        exact Or.inl hk
      · exact Or.inr (Or.inl (List.mem_cons_of_mem _ he))
    · rcases List.mem_cons.mp h with he | he
      · rw [he]
        exact Or.inr (Or.inl (List.mem_cons_self _ _))
      · rcases appendTrackTo_keys he with h1 | h2 | ⟨us', h3⟩
        · exact Or.inl h1
        · exact Or.inr (Or.inl (List.mem_cons_of_mem _ h2))
        · exact Or.inr (Or.inr ⟨us', List.mem_cons_of_mem _ h3⟩)

/-- The invariant the bucketing loop maintains, relative to the playlist
list fetched at run start (`fetched`) — in `runSync` the service's playlists
at run start. -/
structure SyncInv (fetched : List Playlist) (st : SyncState) : Prop where
  /-- every resolved label's id is the id of the first name match in the
  current service state -/
  resolvedFound : ∀ L i, (L, i) ∈ st.playlistMap →
    ∃ p, findFirstByName st.service.playlists L = some p ∧ p.id = i
  /-- for unresolved labels the service looks as fetched at run start -/
  unresolvedSame : ∀ L, lookupA st.playlistMap L = none →
    findFirstByName st.service.playlists L = findFirstByName fetched L
  /-- every bucketed label is resolved -/
  bucketsResolved : ∀ e ∈ st.tracksByMonth, ∃ i, lookupA st.playlistMap e.1 = some i
  /-- every create call is public, non-collaborative, with empty description -/
  createShape : ∀ c ∈ st.createCalls,
    c.isPublic = true ∧ c.collaborative = false ∧ c.description = ""
  /-- creations happen only for labels with no name match at run start, and
  are recorded in the resolution cache -/
  createNotFound : ∀ c ∈ st.createCalls,
    findFirstByName fetched c.name = none ∧ lookupA st.playlistMap c.name ≠ none
  /-- at most one creation per label -/
  createOnce : ∀ L, (st.createCalls.filter fun c => c.name == L).length ≤ 1
  /-- a resolved label with no name match at run start was created -/
  createdWhenMissing : ∀ L i, (L, i) ∈ st.playlistMap →
    findFirstByName fetched L = none → ∃ c ∈ st.createCalls, c.name = L
  /-- a resolved label with a name match at run start got that match's id -/
  foundId : ∀ L p, findFirstByName fetched L = some p →
    ∀ i, (L, i) ∈ st.playlistMap → i = p.id

/-- The invariant holds at the start of a run. -/
lemma syncInv_init (s : ServiceState) : SyncInv s.playlists ⟨[], [], s, []⟩ where
  resolvedFound := by
    intro L i h
    exact absurd h (List.not_mem_nil _)
  unresolvedSame := fun _ _ => rfl
  bucketsResolved := by
    intro e he
    exact absurd he (List.not_mem_nil _)
  createShape := by
    intro c hc
    exact absurd hc (List.not_mem_nil _)
  createNotFound := by
    intro c hc
    exact absurd hc (List.not_mem_nil _)
  createOnce := by
    intro L
    simp
  createdWhenMissing := by
    intro L i h
    exact absurd h (List.not_mem_nil _)
  foundId := by
    intro L p _ i h
    exact absurd h (List.not_mem_nil _)

lemma findFirstByName_append (l1 l2 : List Playlist) (nm : String) :
    findFirstByName (l1 ++ l2) nm = (findFirstByName l1 nm).or (findFirstByName l2 nm) :=
  List.find?_append

lemma findFirstByName_singleton {p : Playlist} {nm : String} :
    findFirstByName [p] nm = if p.name = nm then some p else none := by
  unfold findFirstByName
  rw [List.find?_cons]
  by_cases h : p.name = nm
  · simp [h]
  · have hb : (p.name == nm) = false := by simp [h]
    simp [hb, h]

/-- Preservation of the invariant through one iteration of the bucketing
loop. -/
lemma syncInv_processTrack {fetched : List Playlist} {st st' : SyncState}
    {tr : Option TrackRaw} (inv : SyncInv fetched st)
    (h : processTrack fetched st tr = some st') : SyncInv fetched st' := by
  unfold processTrack at h
  cases hdec : decodeTrack tr with
  | none =>
    rw [hdec] at h
    exact absurd h (by simp)
  | some lu =>
    rw [hdec] at h
    simp only [Option.map_some'] at h
    obtain ⟨L, u⟩ := lu
    set st1 : SyncState := { st with tracksByMonth := appendTrackTo st.tracksByMonth L u }
      with hst1
    have hb1 : ∀ j, lookupA st1.playlistMap L = some j →
        ∀ e ∈ st1.tracksByMonth, ∃ i, lookupA st1.playlistMap e.1 = some i := by
      intro j hj e he
      rcases appendTrackTo_keys he with h1 | h2 | ⟨us, h3⟩
      · exact ⟨j, h1 ▸ hj⟩
      · exact inv.bucketsResolved e h2
      · exact inv.bucketsResolved (e.1, us) h3
    have hst' : st' = resolveLabel fetched st1 L := (Option.some_injective _ h).symm
    rw [hst']
    unfold resolveLabel
    cases hl : lookupA st1.playlistMap L with
    | some j =>
      exact {
        resolvedFound := inv.resolvedFound
        unresolvedSame := inv.unresolvedSame
        bucketsResolved := hb1 j hl
        createShape := inv.createShape
        createNotFound := inv.createNotFound
        createOnce := inv.createOnce
        createdWhenMissing := inv.createdWhenMissing
        foundId := inv.foundId }
    | none =>
      cases hf : findFirstByName fetched L with
      | some p =>
        refine {
          resolvedFound := ?_
          unresolvedSame := ?_
          bucketsResolved := ?_
          createShape := inv.createShape
          createNotFound := ?_
          createOnce := inv.createOnce
          createdWhenMissing := ?_
          foundId := ?_ }
        · intro L' i' hmem
          rcases List.mem_append.mp hmem with hold | hnew
          · exact inv.resolvedFound L' i' hold
          · injection List.mem_singleton.mp hnew with hL hi
            rw [hL, hi]
            exact ⟨p, (inv.unresolvedSame L hl).trans hf, rfl⟩
        · intro L' hnone
          exact inv.unresolvedSame L' (lookupA_none_of_append hnone)
        · intro e he
          rcases appendTrackTo_keys he with h1 | h2 | ⟨us, h3⟩
          · refine ⟨p.id, ?_⟩
            rw [h1]
            exact lookupA_append_self hl
          · obtain ⟨i, hi⟩ := inv.bucketsResolved e h2
            exact ⟨i, lookupA_append_some _ hi⟩
          · obtain ⟨i, hi⟩ := inv.bucketsResolved (e.1, us) h3
            exact ⟨i, lookupA_append_some _ hi⟩
        · intro c hc
          obtain ⟨h1, h2⟩ := inv.createNotFound c hc
          refine ⟨h1, ?_⟩
          cases hx : lookupA st1.playlistMap c.name with
          | none => exact absurd hx h2
          | some jx =>
            rw [lookupA_append_some _ hx]
            simp
        · intro L' i' hmem hmiss
          rcases List.mem_append.mp hmem with hold | hnew
          · exact inv.createdWhenMissing L' i' hold hmiss
          · injection List.mem_singleton.mp hnew with hL hi
            rw [hL, hf] at hmiss
            exact absurd hmiss (by simp)
        · intro L' p' hfound i' hmem
          rcases List.mem_append.mp hmem with hold | hnew
          · exact inv.foundId L' p' hfound i' hold
          · injection List.mem_singleton.mp hnew with hL hi
            rw [hL, hf] at hfound
            rw [hi, Option.some_injective _ hfound]
      | none =>
        refine {
          resolvedFound := ?_
          unresolvedSame := ?_
          bucketsResolved := ?_
          createShape := ?_
          createNotFound := ?_
          createOnce := ?_
          createdWhenMissing := ?_
          foundId := ?_ }
        · intro L' i' hmem
          rcases List.mem_append.mp hmem with hold | hnew
          · obtain ⟨p, hp, hpid⟩ := inv.resolvedFound L' i' hold
            refine ⟨p, ?_, hpid⟩
            rw [findFirstByName_append]
            simp only [hp, Option.or_some]
          · injection List.mem_singleton.mp hnew with hL hi
            rw [hL, hi]
            refine ⟨⟨st1.service.nextId, L, []⟩, ?_, rfl⟩
            rw [findFirstByName_append, (inv.unresolvedSame L hl).trans hf]
            rw [Option.none_or, findFirstByName_singleton]
            simp
        · intro L' hnone
          have hne : L' ≠ L := by
            intro heq
            subst heq
            rw [lookupA_append_self hl] at hnone
            exact absurd hnone (by simp)
          have hnone' : lookupA st1.playlistMap L' = none := lookupA_none_of_append hnone
          rw [findFirstByName_append, inv.unresolvedSame L' hnone']
          rw [findFirstByName_singleton, if_neg (by simp [hne.symm])]
          exact Option.or_none
        · intro e he
          rcases appendTrackTo_keys he with h1 | h2 | ⟨us, h3⟩
          · refine ⟨st1.service.nextId, ?_⟩
            rw [h1]
            exact lookupA_append_self hl
          · obtain ⟨i, hi⟩ := inv.bucketsResolved e h2
            exact ⟨i, lookupA_append_some _ hi⟩
          · obtain ⟨i, hi⟩ := inv.bucketsResolved (e.1, us) h3
            exact ⟨i, lookupA_append_some _ hi⟩
        · intro c hc
          rcases List.mem_append.mp hc with hold | hnew
          · exact inv.createShape c hold
          · rw [List.mem_singleton.mp hnew]
            exact ⟨rfl, rfl, rfl⟩
        · intro c hc
          rcases List.mem_append.mp hc with hold | hnew
          · obtain ⟨h1, h2⟩ := inv.createNotFound c hold
            refine ⟨h1, ?_⟩
            cases hx : lookupA st1.playlistMap c.name with
            | none => exact absurd hx h2
            | some jx =>
              rw [lookupA_append_some _ hx]
              simp
          · rw [List.mem_singleton.mp hnew]
            refine ⟨hf, ?_⟩
            rw [lookupA_append_self hl]
            simp
        · intro L'
          rw [List.filter_append]
          by_cases hne : L' = L
          · subst hne
            have hempty : st.createCalls.filter (fun c => c.name == L') = [] := by
              rw [List.filter_eq_nil_iff]
              intro c hc hcL
              have h2 := (inv.createNotFound c hc).2
              rw [show c.name = L' from by simpa using hcL] at h2
              exact h2 hl
            rw [hempty]
            simp
          · have : List.filter (fun c => c.name == L') [(⟨L, true, false, ""⟩ : CreateCall)]
                = [] := by
              simp [hne]
              intro habs
              exact absurd habs.symm hne
            rw [this, List.append_nil]
            exact inv.createOnce L'
        · intro L' i' hmem hmiss
          rcases List.mem_append.mp hmem with hold | hnew
          · obtain ⟨c, hc, hcn⟩ := inv.createdWhenMissing L' i' hold hmiss
            exact ⟨c, List.mem_append_left _ hc, hcn⟩
          · injection List.mem_singleton.mp hnew with hL hi
            rw [hL]
            exact ⟨⟨L, true, false, ""⟩, List.mem_append_right _ (List.mem_singleton_self _),
              rfl⟩
        · intro L' p' hfound i' hmem
          rcases List.mem_append.mp hmem with hold | hnew
          · exact inv.foundId L' p' hfound i' hold
          · injection List.mem_singleton.mp hnew with hL hi
            rw [hL, hf] at hfound
            exact absurd hfound (by simp)

lemma processTrack_eq_none {f : List Playlist} {st : SyncState} {tr : Option TrackRaw}
    (h : decodeTrack tr = none) : processTrack f st tr = none := by
  unfold processTrack
  rw [h]
  rfl

lemma processTrack_eq_some {f : List Playlist} {st : SyncState} {tr : Option TrackRaw}
    {lu : String × String} (h : decodeTrack tr = some lu) :
    processTrack f st tr = some (resolveLabel f
      { st with tracksByMonth := appendTrackTo st.tracksByMonth lu.1 lu.2 } lu.1) := by
  unfold processTrack
  rw [h]
  rfl

lemma resolveLabel_tracksByMonth (f : List Playlist) (st : SyncState) (L : String) :
    (resolveLabel f st L).tracksByMonth = st.tracksByMonth := by
  unfold resolveLabel
  cases lookupA st.playlistMap L with
  | none => cases findFirstByName f L <;> rfl
  | some j => rfl

lemma resolveLabel_service_append (f : List Playlist) (st : SyncState) (L : String) :
    ∃ ext, (resolveLabel f st L).service.playlists = st.service.playlists ++ ext := by
  unfold resolveLabel
  cases lookupA st.playlistMap L with
  | none =>
    cases findFirstByName f L with
    | none => exact ⟨[⟨st.service.nextId, L, []⟩], rfl⟩
    | some p => exact ⟨[], (List.append_nil _).symm⟩
  | some j => exact ⟨[], (List.append_nil _).symm⟩

/-- The bucketing and the abort point of the loop depend only on the track
list, not on the fetched playlists or the rest of the state. -/
lemma phaseA_congr : ∀ (ts : List (Option TrackRaw)) (f f' : List Playlist)
    (st st' : SyncState), st.tracksByMonth = st'.tracksByMonth →
    (phaseA f ts st).1.tracksByMonth = (phaseA f' ts st').1.tracksByMonth
    ∧ (phaseA f ts st).2 = (phaseA f' ts st').2
  | [], f, f', st, st', htb => ⟨htb, rfl⟩
  | tr :: rest, f, f', st, st', htb => by
    rw [phaseA, phaseA]
    cases hdec : decodeTrack tr with
    | none =>
      rw [processTrack_eq_none hdec, processTrack_eq_none hdec]
      exact ⟨htb, rfl⟩
    | some lu =>
      rw [processTrack_eq_some hdec, processTrack_eq_some hdec]
      exact phaseA_congr rest f f' _ _ (by
        rw [resolveLabel_tracksByMonth, resolveLabel_tracksByMonth]
        simp only
        rw [htb])

lemma syncInv_phaseA {fetched : List Playlist} :
    ∀ {ts : List (Option TrackRaw)} {st : SyncState},
      SyncInv fetched st → SyncInv fetched (phaseA fetched ts st).1
  | [], _, inv => inv
  | tr :: rest, st, inv => by
    rw [phaseA]
    cases hp : processTrack fetched st tr with
    | none => exact inv
    | some st1 => exact syncInv_phaseA (syncInv_processTrack inv hp)

lemma phaseA_service_append (fetched : List Playlist) :
    ∀ (ts : List (Option TrackRaw)) (st : SyncState),
      ∃ ext, (phaseA fetched ts st).1.service.playlists = st.service.playlists ++ ext
  | [], st => ⟨[], (List.append_nil _).symm⟩
  | tr :: rest, st => by
    rw [phaseA]
    cases hp : processTrack fetched st tr with
    | none => exact ⟨[], (List.append_nil _).symm⟩
    | some st1 =>
      obtain ⟨ext1, h1⟩ := phaseA_service_append fetched rest st1
      cases hdec : decodeTrack tr with
      | none => exact absurd hp (by rw [processTrack_eq_none hdec]; simp)
      | some lu =>
        rw [processTrack_eq_some hdec] at hp
        obtain ⟨ext0, h0⟩ := resolveLabel_service_append fetched
          { st with tracksByMonth := appendTrackTo st.tracksByMonth lu.1 lu.2 } lu.1
        refine ⟨ext0 ++ ext1, ?_⟩
        rw [h1, ← Option.some_injective _ hp, h0, List.append_assoc]

lemma getPlaylistById_of_find {s : ServiceState} {L : String} {p : Playlist}
    (h : findFirstByName s.playlists L = some p) : ∃ q, getPlaylistById s p.id = some q := by
  have hmem : p ∈ s.playlists := List.mem_of_find?_eq_some h
  have hs : (s.playlists.find? fun q => q.id == p.id).isSome := by
    rw [List.find?_isSome]
    exact ⟨p, hmem, by simp⟩
  obtain ⟨q, hq⟩ := Option.isSome_iff_exists.mp hs
  exact ⟨q, hq⟩

/-- The service only grows across a run. -/
lemma runSync_grow (s : ServiceState) (raw : List (Option TrackRaw)) :
    svcGrow s (runSync s raw).finalState := by
  simp only [runSync]
  have hA := phaseA_service_append s.playlists (reverseGo raw) ⟨[], [], s, []⟩
  obtain ⟨ext, hext⟩ := hA
  have g1 : svcGrow s (phaseA s.playlists (reverseGo raw) ⟨[], [], s, []⟩).1.service :=
    svcGrow_of_append ext hext
  cases hok : (phaseA s.playlists (reverseGo raw) ⟨[], [], s, []⟩).2 with
  | false =>
    simp only [Bool.false_eq_true, if_false]
    exact g1
  | true =>
    simp only [if_true]
    exact svcGrow_trans g1 (phaseB_grow _ _ _ _)

lemma runSync_calls_contained (s : ServiceState) (raw : List (Option TrackRaw)) :
    ∀ c ∈ (runSync s raw).appendCalls, ∀ u ∈ c.uris,
      memFirstById (runSync s raw).finalState c.playlistId u := by
  simp only [runSync]
  cases hok : (phaseA s.playlists (reverseGo raw) ⟨[], [], s, []⟩).2 with
  | false =>
    simp only [Bool.false_eq_true, if_false]
    intro c hc
    exact absurd hc (List.not_mem_nil c)
  | true =>
    simp only [if_true]
    exact phaseB_calls_contained _ _ _

/-- Claim C1: the synchronization is idempotent.  First part: a second run
over the same saved-tracks list issues zero append calls.  Second part: a
URI appended to a playlist by one run is never part of an append call to
that playlist in the following run, whatever tracks were saved in between. -/
theorem c1_sync_idempotent :
    (∀ (s : ServiceState) (raw : List (Option TrackRaw)),
      (runSync (runSync s raw).finalState raw).appendCalls = [])
    ∧ (∀ (s : ServiceState) (raw1 raw2 : List (Option TrackRaw)) (i : Nat) (u : String)
        (c c' : AppendCall), c ∈ (runSync s raw1).appendCalls → c.playlistId = i →
        u ∈ c.uris → c' ∈ (runSync (runSync s raw1).finalState raw2).appendCalls →
        c'.playlistId = i → u ∉ c'.uris) := by
  constructor
  · intro s raw
    set s1 := (runSync s raw).finalState with hs1
    have hcongr := phaseA_congr (reverseGo raw) s.playlists s1.playlists
      ⟨[], [], s, []⟩ ⟨[], [], s1, []⟩ rfl
    simp only [runSync]
    cases hok2 : (phaseA s1.playlists (reverseGo raw) ⟨[], [], s1, []⟩).2 with
    | false =>
      simp only [Bool.false_eq_true, if_false]
    | true =>
      simp only [if_true]
      have hok1 : (phaseA s.playlists (reverseGo raw) ⟨[], [], s, []⟩).2 = true :=
        hcongr.2.trans hok2
      have inv1 : SyncInv s.playlists (phaseA s.playlists (reverseGo raw) ⟨[], [], s, []⟩).1 :=
        syncInv_phaseA (syncInv_init s)
      have inv2 : SyncInv s1.playlists
          (phaseA s1.playlists (reverseGo raw) ⟨[], [], s1, []⟩).1 :=
        syncInv_phaseA (syncInv_init s1)
      have hs1val : s1 = (phaseB
          (phaseA s.playlists (reverseGo raw) ⟨[], [], s, []⟩).1.playlistMap
          (phaseA s.playlists (reverseGo raw) ⟨[], [], s, []⟩).1.tracksByMonth
          (phaseA s.playlists (reverseGo raw) ⟨[], [], s, []⟩).1.service []).1.1 := by
        rw [hs1]
        simp only [runSync, hok1, if_true]
      have hpre1 : ∀ e ∈ (phaseA s.playlists (reverseGo raw) ⟨[], [], s, []⟩).1.tracksByMonth,
          ∃ i, lookupA (phaseA s.playlists (reverseGo raw) ⟨[], [], s, []⟩).1.playlistMap e.1
              = some i
            ∧ ∃ q, getPlaylistById
                (phaseA s.playlists (reverseGo raw) ⟨[], [], s, []⟩).1.service i = some q := by
        intro e he
        obtain ⟨i, hi⟩ := inv1.bucketsResolved e he
        obtain ⟨p, hp, hpid⟩ := inv1.resolvedFound e.1 i (lookupA_mem hi)
        obtain ⟨q, hq⟩ := getPlaylistById_of_find hp
        rw [hpid] at hq
        exact ⟨i, hi, q, hq⟩
      have hpend := phaseB_pending
        (phaseA s.playlists (reverseGo raw) ⟨[], [], s, []⟩).1.playlistMap
        (phaseA s.playlists (reverseGo raw) ⟨[], [], s, []⟩).1.tracksByMonth
        (phaseA s.playlists (reverseGo raw) ⟨[], [], s, []⟩).1.service [] hpre1
      have htb : (phaseA s1.playlists (reverseGo raw) ⟨[], [], s1, []⟩).1.tracksByMonth
          = (phaseA s.playlists (reverseGo raw) ⟨[], [], s, []⟩).1.tracksByMonth :=
        hcongr.1.symm
      have g1 : svcGrow (phaseA s.playlists (reverseGo raw) ⟨[], [], s, []⟩).1.service s1 := by
        rw [hs1val]
        exact phaseB_grow _ _ _ _
      obtain ⟨ext2, hext2⟩ := phaseA_service_append s1.playlists (reverseGo raw)
        ⟨[], [], s1, []⟩
      have g2 : svcGrow s1 (phaseA s1.playlists (reverseGo raw) ⟨[], [], s1, []⟩).1.service :=
        svcGrow_of_append ext2 hext2
      have hpre2 : ∀ e ∈ (phaseA s1.playlists (reverseGo raw) ⟨[], [], s1, []⟩).1.tracksByMonth,
          ∃ i, lookupA (phaseA s1.playlists (reverseGo raw) ⟨[], [], s1, []⟩).1.playlistMap e.1
              = some i
            ∧ ∃ q, getPlaylistById
                (phaseA s1.playlists (reverseGo raw) ⟨[], [], s1, []⟩).1.service i = some q
              ∧ ∀ u ∈ e.2, u ∈ q.uris := by
        intro e he
        have he1 : e ∈ (phaseA s.playlists (reverseGo raw) ⟨[], [], s, []⟩).1.tracksByMonth :=
          htb ▸ he
        obtain ⟨i2, hi2⟩ := inv2.bucketsResolved e he
        obtain ⟨i1, hi1⟩ := inv1.bucketsResolved e he1
        obtain ⟨p, hp, hpid⟩ := inv1.resolvedFound e.1 i1 (lookupA_mem hi1)
        obtain ⟨p', hp', hgrow⟩ := svcGrow_findFirstByName g1 hp
        have hp'id : p'.id = i1 := hgrow.1.trans hpid
        have hii : i2 = i1 := by
          have := inv2.foundId e.1 p' hp' i2 (lookupA_mem hi2)
          rw [this, hp'id]
        obtain ⟨p2, hp2, hp2id⟩ := inv2.resolvedFound e.1 i2 (lookupA_mem hi2)
        obtain ⟨q, hq⟩ := getPlaylistById_of_find hp2
        rw [hp2id] at hq
        refine ⟨i2, hi2, q, hq, ?_⟩
        intro u hu
        have hm1 : memFirstById s1 i1 u := by
          rw [hs1val]
          exact hpend.2 e he1 i1 hi1 u hu
        have hm2 : memFirstById
            (phaseA s1.playlists (reverseGo raw) ⟨[], [], s1, []⟩).1.service i1 u :=
          memFirstById_grow g2 hm1
        obtain ⟨q', hq', hq'u⟩ := hm2
        rw [hii] at hq
        have : q' = q := Option.some_injective _ (hq'.symm.trans hq)
        rw [← this]
        exact hq'u
      rw [phaseB_noop _ _ _ _ hpre2]
  · intro s raw1 raw2 i u c c' hc hci hu hc' hci'
    have hmem1 : memFirstById (runSync s raw1).finalState i u := by
      have := runSync_calls_contained s raw1 c hc u hu
      rw [hci] at this
      exact this
    set s1 := (runSync s raw1).finalState with hs1
    revert hc' hci'
    simp only [runSync]
    cases hok : (phaseA s1.playlists (reverseGo raw2) ⟨[], [], s1, []⟩).2 with
    | false =>
      simp only [Bool.false_eq_true, if_false]
      intro _ hc'
      exact absurd hc' (List.not_mem_nil c')
    | true =>
      simp only [if_true]
      intro hci' hc'
      obtain ⟨ext, hext⟩ := phaseA_service_append s1.playlists
        (reverseGo raw2) ⟨[], [], s1, []⟩
      have hmem2 : memFirstById (phaseA s1.playlists
          (reverseGo raw2) ⟨[], [], s1, []⟩).1.service i u :=
        memFirstById_grow (svcGrow_of_append ext hext) hmem1
      exact phaseB_excludes _ _ _ i u hmem2 c' hc' hci'

/-! ## Pagination lemmas -/

lemma fetchLoop_items_missing {α : Type} (nxt : Option (Option String))
    (rest : List (Except FetchErr (RawPage α))) (acc : List α) :
    fetchLoop ⟨none, nxt⟩ rest acc = .error .itemsType := by
  cases rest with
  | nil => rfl
  | cons x rest1 => cases x <;> rfl

lemma fetchLoop_next_missing {α : Type} (p : List α)
    (rest : List (Except FetchErr (RawPage α))) (acc : List α) :
    fetchLoop ⟨some p, none⟩ rest acc = .error .nextMissing := by
  cases rest with
  | nil => rfl
  | cons x rest1 => cases x <;> rfl

lemma fetchLoop_terminal {α : Type} (p : List α)
    (rest : List (Except FetchErr (RawPage α))) (acc : List α) :
    fetchLoop ⟨some p, some none⟩ rest acc = .ok (acc ++ p) := by
  cases rest with
  | nil => rfl
  | cons x rest1 => cases x <;> rfl

lemma fetchLoop_cont {α : Type} (p : List α) (url : String)
    (rest : List (Except FetchErr (RawPage α))) (acc : List α) :
    fetchLoop ⟨some p, some (some url)⟩ rest acc =
      match rest with
      | [] => .error .transport
      | .error e :: _ => .error e
      | .ok r1 :: rest1 =>
        fetchLoop (mergePage ⟨some p, some (some url)⟩ r1) rest1 (acc ++ p) := by
  cases rest with
  | nil => rfl
  | cons x rest1 => cases x <;> rfl

/-- A body that carries both keys overwrites the whole map. -/
lemma mergePage_full {α : Type} (old : RawPage α) (its : List α)
    (nxt : Option String) : mergePage old ⟨some its, some nxt⟩ = ⟨some its, some nxt⟩ :=
  rfl

lemma fetchLoop_mkChain {α : Type} :
    ∀ (ps : List (List α)) (p : List α) (rest : List (Except FetchErr (RawPage α)))
      (acc : List α),
      fetchLoop ⟨some p, nextMark ps⟩ (mkChain ps ++ rest) acc
        = .ok (acc ++ p ++ ps.flatten)
  | [], p, rest, acc => by
    rw [show nextMark ([] : List (List α)) = some none from rfl, fetchLoop_terminal]
    simp
  | q :: qs, p, rest, acc => by
    rw [show nextMark (q :: qs) = some (some "url") from rfl, fetchLoop_cont]
    rw [show mkChain (q :: qs) = .ok ⟨some q, nextMark qs⟩ :: mkChain qs from rfl]
    simp only [List.cons_append]
    rw [show mergePage (⟨some p, some (some "url")⟩ : RawPage α) ⟨some q, nextMark qs⟩
        = ⟨some q, nextMark qs⟩ from by cases qs <;> rfl]
    rw [fetchLoop_mkChain qs q rest (acc ++ p)]
    simp [List.append_assoc]

/-- The items of the last page of a non-empty chain. -/
def chainLast {α : Type} (p : List α) : List (List α) → List α
  | [] => p
  | q :: qs => chainLast q qs

lemma fetchLoop_chainCont {α : Type} :
    ∀ (ps : List (List α)) (p : List α) (x : Except FetchErr (RawPage α))
      (rest : List (Except FetchErr (RawPage α))) (acc : List α),
      fetchLoop ⟨some p, some (some "url")⟩ (mkChainCont ps ++ x :: rest) acc
        = match x with
          | .error e => .error e
          | .ok r => fetchLoop (mergePage ⟨some (chainLast p ps), some (some "url")⟩ r)
              rest (acc ++ p ++ ps.flatten)
  | [], p, x, rest, acc => by
    rw [show mkChainCont ([] : List (List α)) = [] from rfl, List.nil_append, fetchLoop_cont]
    cases x with
    | error e => rfl
    | ok r =>
      show fetchLoop (mergePage ⟨some p, some (some "url")⟩ r) rest (acc ++ p)
        = fetchLoop (mergePage ⟨some (chainLast p []), some (some "url")⟩ r) rest
            (acc ++ p ++ List.flatten [])
      rw [show chainLast p ([] : List (List α)) = p from rfl]
      simp
  | q :: qs, p, x, rest, acc => by
    rw [show mkChainCont (q :: qs)
        = .ok ⟨some q, some (some "url")⟩ :: mkChainCont qs from rfl]
    simp only [List.cons_append]
    rw [fetchLoop_cont]
    simp only
    rw [show mergePage (⟨some p, some (some "url")⟩ : RawPage α) ⟨some q, some (some "url")⟩
        = ⟨some q, some (some "url")⟩ from rfl]
    rw [fetchLoop_chainCont qs q x rest (acc ++ p)]
    cases x with
    | error e => rfl
    | ok r =>
      show fetchLoop _ rest (acc ++ p ++ q ++ qs.flatten)
        = fetchLoop _ rest (acc ++ p ++ (q :: qs).flatten)
      rw [show chainLast p (q :: qs) = chainLast q qs from rfl]
      simp [List.append_assoc]

/-- Claim C4, counterexample: a three-response chain whose second page omits
the `next` field.  The pager does not fail with the absent-field decode
error the claim requires: the reused decode map still holds the first
page's URL, the loop silently continues, and the fetch succeeds with all
three pages' items. -/
theorem c4_counterexample :
    enumeratePaged [.ok ⟨some [1, 2], some (some "page2")⟩,
        .ok (⟨some [3], none⟩ : RawPage Nat), .ok ⟨some [4], some none⟩]
      = .ok [1, 2, 3, 4]
    ∧ enumeratePaged [.ok ⟨some [1, 2], some (some "page2")⟩,
        .ok (⟨some [3], none⟩ : RawPage Nat), .ok ⟨some [4], some none⟩]
      ≠ Except.error FetchErr.nextMissing :=
  ⟨rfl, fun h => Except.noConfusion h⟩

/-- Claim C4, amended: the pager concatenates all N pages' items in page
order, stopping exactly at a present-null `next` (N ≥ 1, trailing responses
unconsumed); the first transport error aborts the fetch with an error (no
partial result); but the absent-field decode errors can fire only on the
*first* page, whose map is freshly allocated — on a later page the decode
reuses the map, so an absent `next` keeps the previous page's URL and the
loop silently continues, and an absent `items` re-appends the previous
page's items. -/
theorem c4_pagination :
    (∀ (α : Type) (pages : List (List α)) (rest : List (Except FetchErr (RawPage α))),
      pages ≠ [] → enumeratePaged (mkChain pages ++ rest) = .ok pages.flatten)
    ∧ (∀ (α : Type) (its : List α) (rest : List (Except FetchErr (RawPage α))),
      enumeratePaged (.ok ⟨some its, none⟩ :: rest) = .error .nextMissing)
    ∧ (∀ (α : Type) (nxt : Option (Option String))
        (rest : List (Except FetchErr (RawPage α))),
      enumeratePaged (.ok ⟨none, nxt⟩ :: rest) = .error .itemsType)
    ∧ (∀ (α : Type) (pages : List (List α)) (e : FetchErr)
        (rest : List (Except FetchErr (RawPage α))),
      enumeratePaged (mkChainCont pages ++ .error e :: rest) = .error e)
    ∧ (∀ (α : Type) (p1 p2 p3 : List α) (url : String),
      enumeratePaged [.ok ⟨some p1, some (some url)⟩, .ok ⟨some p2, none⟩,
        .ok ⟨some p3, some none⟩] = .ok (p1 ++ p2 ++ p3))
    ∧ (∀ (α : Type) (p1 : List α) (url : String),
      enumeratePaged [.ok ⟨some p1, some (some url)⟩, .ok ⟨none, some none⟩]
        = .ok (p1 ++ p1)) := by
  refine ⟨?_, ?_, ?_, ?_, ?_, ?_⟩
  · intro α pages rest hne
    cases pages with
    | nil => exact absurd rfl hne
    | cons p ps =>
      rw [show mkChain (p :: ps) = .ok ⟨some p, nextMark ps⟩ :: mkChain ps from rfl]
      rw [List.cons_append]
      rw [show enumeratePaged (.ok (⟨some p, nextMark ps⟩ : RawPage α)
          :: (mkChain ps ++ rest)) = fetchLoop ⟨some p, nextMark ps⟩ (mkChain ps ++ rest) []
        from rfl]
      rw [fetchLoop_mkChain]
      simp
  · intro α its rest
    rw [show enumeratePaged (.ok (⟨some its, none⟩ : RawPage α) :: rest)
        = fetchLoop ⟨some its, none⟩ rest [] from rfl]
    exact fetchLoop_next_missing its rest []
  · intro α nxt rest
    rw [show enumeratePaged (.ok (⟨none, nxt⟩ : RawPage α) :: rest)
        = fetchLoop ⟨none, nxt⟩ rest [] from rfl]
    exact fetchLoop_items_missing nxt rest []
  · intro α pages e rest
    cases pages with
    | nil => rfl
    | cons p ps =>
      rw [show mkChainCont (p :: ps)
          = .ok ⟨some p, some (some "url")⟩ :: mkChainCont ps from rfl]
      rw [List.cons_append]
      rw [show enumeratePaged (.ok (⟨some p, some (some "url")⟩ : RawPage α)
          :: (mkChainCont ps ++ .error e :: rest))
          = fetchLoop ⟨some p, some (some "url")⟩
            (mkChainCont ps ++ .error e :: rest) [] from rfl]
      rw [fetchLoop_chainCont]
  · intro α p1 p2 p3 url
    have h : enumeratePaged [.ok ⟨some p1, some (some url)⟩, .ok ⟨some p2, none⟩,
        .ok ⟨some p3, some none⟩] = Except.ok ((p1 ++ p2) ++ p3) := rfl
    rw [h, List.append_assoc]
  · intro α p1 url
    rfl

lemma runSync_createCalls (s : ServiceState) (raw : List (Option TrackRaw)) :
    (runSync s raw).createCalls
      = (phaseA s.playlists (reverseGo raw) ⟨[], [], s, []⟩).1.createCalls := by
  simp only [runSync]
  cases hok : (phaseA s.playlists (reverseGo raw) ⟨[], [], s, []⟩).2 with
  | false => simp only [Bool.false_eq_true, if_false]
  | true => simp only [if_true]

/-- Claim C3: playlist resolution per label.  In every run: at most one
create call per label, every create call is public, non-collaborative and
has an empty description; a label with an existing name match gets the first
match's id cached and is never created; and a label that occurs in the run
(has a bucket) with no existing name match is created exactly once. -/
theorem c3_playlist_resolution :
    ∀ (s : ServiceState) (raw : List (Option TrackRaw)),
      (∀ L, (((runSync s raw).createCalls).filter fun c => c.name == L).length ≤ 1)
      ∧ (∀ c ∈ (runSync s raw).createCalls,
          c.isPublic = true ∧ c.collaborative = false ∧ c.description = "")
      ∧ (∀ L p, findFirstByName s.playlists L = some p →
          (∀ c ∈ (runSync s raw).createCalls, c.name ≠ L)
          ∧ ∀ i, (L, i) ∈ (phaseA s.playlists (reverseGo raw) ⟨[], [], s, []⟩).1.playlistMap
              → i = p.id)
      ∧ (∀ e ∈ (phaseA s.playlists (reverseGo raw) ⟨[], [], s, []⟩).1.tracksByMonth,
          findFirstByName s.playlists e.1 = none →
          (((runSync s raw).createCalls).filter fun c => c.name == e.1).length = 1) := by
  intro s raw
  have inv : SyncInv s.playlists (phaseA s.playlists (reverseGo raw) ⟨[], [], s, []⟩).1 :=
    syncInv_phaseA (syncInv_init s)
  rw [runSync_createCalls]
  refine ⟨inv.createOnce, inv.createShape, ?_, ?_⟩
  · intro L p hp
    constructor
    · intro c hc hname
      have h1 := (inv.createNotFound c hc).1
      rw [hname, hp] at h1
      exact absurd h1 (by simp)
    · intro i hmem
      exact inv.foundId L p hp i hmem
  · intro e he hmiss
    obtain ⟨i, hi⟩ := inv.bucketsResolved e he
    obtain ⟨c, hc, hcname⟩ := inv.createdWhenMissing e.1 i (lookupA_mem hi) hmiss
    have hmemf : c ∈ (phaseA s.playlists (reverseGo raw)
        ⟨[], [], s, []⟩).1.createCalls.filter fun c => c.name == e.1 :=
      List.mem_filter.mpr ⟨hc, by simp [hcname]⟩
    have hpos := List.length_pos_of_mem hmemf
    have hle := inv.createOnce e.1
    omega

/-- Claim C8, amended: `AddItemsToPlaylist` itself always issues exactly one
POST, even for an empty URI list; the emptiness guard lives at the call site
in `main`, so the engine never issues an append call whose URI list is
empty — a label whose delta is empty after dedup produces no append call. -/
theorem c8_empty_delta_guard :
    (∀ (playlistId : String) (uris : List String),
      (addItemsRequests playlistId uris).length = 1)
    ∧ (∀ (s : ServiceState) (raw : List (Option TrackRaw)),
        ∀ c ∈ (runSync s raw).appendCalls, c.uris ≠ []) := by
  refine ⟨fun _ _ => rfl, ?_⟩
  intro s raw
  simp only [runSync]
  cases hok : (phaseA s.playlists (reverseGo raw) ⟨[], [], s, []⟩).2 with
  | false =>
    simp only [Bool.false_eq_true, if_false]
    intro c hc
    exact absurd hc (List.not_mem_nil c)
  | true =>
    simp only [if_true]
    refine phaseB_inv _ (fun _ calls => ∀ c ∈ calls, c.uris ≠ []) ?_ _ _ [] ?_
    · intro s' calls' e r hpm hP
      rcases processMonth_spec hpm with heq | ⟨i, p, _, _, hne, heq⟩
      · rw [heq]
        exact hP
      · rw [heq]
        intro c hc
        rcases List.mem_append.mp hc with hold | hnew
        · exact hP c hold
        · rw [List.mem_singleton.mp hnew]
          exact hne
    · intro c hc
      exact absurd hc (List.not_mem_nil c)

/-- Claim C8, witness: a two-track run against a service already containing
both URIs issues no append call at all, and the append-request count of the
raw `AddItemsToPlaylist` is always one. -/
theorem c8_empty_delta_guard_witness :
    (addItemsRequests "p" ["x"]).length = 1
    ∧ ∀ c ∈ (runSync ⟨[⟨0, "January '24", ["a", "b"]⟩], 1⟩
        [some ⟨"2024-01-11T00:00:00Z", "b"⟩, some ⟨"2024-01-10T00:00:00Z", "a"⟩]).appendCalls,
      c.uris ≠ [] :=
  ⟨c8_empty_delta_guard.1 "p" ["x"], c8_empty_delta_guard.2 _ _⟩

/-- Claim C7: the bucket label of a track with a decodable RFC 3339
timestamp is the month name, a space, an apostrophe and the two-digit year,
read from the timestamp's own textual fields (no timezone normalization: a
+09:00 timestamp keeps its own calendar month); the two example timestamps
yield the labels January '24 and February '24, two distinct buckets each
holding its track's URI, created and appended in oldest-first order. -/
theorem c7_month_label :
    (∀ (f : List Playlist) (st : SyncState) (tr : TrackRaw) (gt : GoTime),
      parseRFC3339 tr.addedAt = some gt →
      processTrack f st (some tr) = some (resolveLabel f
        { st with
          tracksByMonth :=
            appendTrackTo st.tracksByMonth
              (monthName gt.month ++ " '" ++ pad2 (gt.year % 100)) tr.uri }
        (monthName gt.month ++ " '" ++ pad2 (gt.year % 100))))
    ∧ (parseRFC3339 "2024-01-15T10:00:00Z").map formatMonthLabel = some "January '24"
    ∧ (parseRFC3339 "2024-02-01T00:00:00Z").map formatMonthLabel = some "February '24"
    ∧ (parseRFC3339 "2024-03-01T01:00:00+09:00").map formatMonthLabel = some "March '24"
    ∧ "January '24" ≠ "February '24"
    ∧ runSync ⟨[], 0⟩ [some ⟨"2024-02-01T00:00:00Z", "spotify:track:feb"⟩,
        some ⟨"2024-01-15T10:00:00Z", "spotify:track:jan"⟩]
      = ⟨[⟨"January '24", true, false, ""⟩, ⟨"February '24", true, false, ""⟩],
         [⟨0, ["spotify:track:jan"]⟩, ⟨1, ["spotify:track:feb"]⟩],
         ⟨[⟨0, "January '24", ["spotify:track:jan"]⟩,
           ⟨1, "February '24", ["spotify:track:feb"]⟩], 2⟩, true⟩ := by
  refine ⟨?_, by decide, by decide, by decide, by decide, by decide⟩
  intro f st tr gt hparse
  have hdec : decodeTrack (some tr) = some (formatMonthLabel gt, tr.uri) := by
    simp only [decodeTrack]
    rw [hparse]
  exact processTrack_eq_some hdec

/-- Claim C7, witness: the general label formula applied to the January
example track at a concrete state. -/
theorem c7_month_label_witness :
    parseRFC3339 "2024-01-15T10:00:00Z" = some ⟨2024, 1, 15, 10, 0, 0, 0⟩
    ∧ processTrack [] ⟨[], [], ⟨[], 0⟩, []⟩ (some ⟨"2024-01-15T10:00:00Z", "u"⟩)
      = some (resolveLabel []
        ⟨[], [("January '24", ["u"])], ⟨[], 0⟩, []⟩ "January '24") := by
  refine ⟨by decide, ?_⟩
  have h := c7_month_label.1 [] ⟨[], [], ⟨[], 0⟩, []⟩ ⟨"2024-01-15T10:00:00Z", "u"⟩
    ⟨2024, 1, 15, 10, 0, 0, 0⟩ (by decide)
  exact h

/-- Claim C1, witness: a concrete two-run scenario.  Run 1 over two January
tracks appends both URIs; running again over the same tracks issues zero
append calls, and the URI "a" appended to playlist 0 by run 1 is absent from
the append call a later run over two new January tracks issues to that
playlist. -/
theorem c1_sync_idempotent_witness :
    (runSync (runSync ⟨[⟨0, "January '24", []⟩], 1⟩
        [some ⟨"2024-01-11T00:00:00Z", "b"⟩, some ⟨"2024-01-10T00:00:00Z", "a"⟩]).finalState
      [some ⟨"2024-01-11T00:00:00Z", "b"⟩, some ⟨"2024-01-10T00:00:00Z", "a"⟩]).appendCalls
      = []
    ∧ "a" ∉ (AppendCall.mk 0 ["c", "d"]).uris :=
  ⟨c1_sync_idempotent.1 ⟨[⟨0, "January '24", []⟩], 1⟩
      [some ⟨"2024-01-11T00:00:00Z", "b"⟩, some ⟨"2024-01-10T00:00:00Z", "a"⟩],
   c1_sync_idempotent.2 ⟨[⟨0, "January '24", []⟩], 1⟩
     [some ⟨"2024-01-11T00:00:00Z", "b"⟩, some ⟨"2024-01-10T00:00:00Z", "a"⟩]
     [some ⟨"2024-01-13T00:00:00Z", "d"⟩, some ⟨"2024-01-12T00:00:00Z", "c"⟩]
     0 "a" ⟨0, ["a", "b"]⟩ ⟨0, ["c", "d"]⟩ (by decide) rfl (by decide) (by decide) rfl⟩

/-- Claim C3, witness: with a playlist named March '24 already on the
service, a run over two March tracks issues at most one create call for that
label (in fact none, as the reuse part of the claim states). -/
theorem c3_playlist_resolution_witness :
    (((runSync ⟨[⟨0, "March '24", []⟩], 1⟩
        [some ⟨"2024-03-02T00:00:00Z", "y"⟩,
         some ⟨"2024-03-01T00:00:00Z", "x"⟩]).createCalls).filter
      fun c => c.name == "March '24").length ≤ 1 :=
  (c3_playlist_resolution ⟨[⟨0, "March '24", []⟩], 1⟩
    [some ⟨"2024-03-02T00:00:00Z", "y"⟩, some ⟨"2024-03-01T00:00:00Z", "x"⟩]).1 "March '24"

/-- Claim C4, witness: a concrete two-page fetch concatenates the pages. -/
theorem c4_pagination_witness :
    enumeratePaged (mkChain [[1, 2], [3]] ++ ([] : List (Except FetchErr (RawPage Nat))))
      = .ok [1, 2, 3] :=
  c4_pagination.1 Nat [[1, 2], [3]] [] (by decide)
